import Mathlib

/-!
Verification of the acquisition/persistence/cancellation core of
Cpp_Multicast_Save.cpp: the ESC poll, the asynchronous save queue and its
worker, the recursive output-directory creation, the acquisition loop of
AcquireImages, and the early-exit paths of main, each shallowly embedded as
executable Lean definitions translated from the C++ source.
-/

set_option maxHeartbeats 1000000

namespace MulticastSave

/-! ## CancellationWatcher: CheckForEsc -/

/-- Read loop of CheckForEsc: `read` pulls one pending byte at a time; the loop
returns true as soon as a byte equals 27 (ESC), leaving any later bytes unread,
and returns false once the buffer is exhausted. The result pairs the poll
outcome with the bytes still pending afterwards. -/
def checkForEscAux : List Nat → Bool × List Nat
  | [] => (false, [])
  | b :: rest => if b = 27 then (true, rest) else checkForEscAux rest

/-- CheckForEsc: when the terminal was not switched to raw non-blocking mode
(`settings.enabled` false) it returns false without reading anything;
otherwise it runs the read loop over the currently pending input bytes. -/
def CheckForEsc (enabled : Bool) (pending : List Nat) : Bool × List Nat :=
  if enabled then checkForEscAux pending else (false, pending)

lemma checkForEscAux_fst_iff (pending : List Nat) :
    (checkForEscAux pending).1 = true ↔ 27 ∈ pending := by
  induction pending with
  | nil => simp [checkForEscAux]
  | cons b rest ih =>
    by_cases hb : b = 27
    · subst hb; simp [checkForEscAux]
    · simp [checkForEscAux, hb, ih, Ne.symm hb]

lemma checkForEscAux_of_not_mem {pending : List Nat} (h : 27 ∉ pending) :
    checkForEscAux pending = (false, []) := by
  induction pending with
  | nil => rfl
  | cons b rest ih =>
    simp only [List.mem_cons, not_or] at h
    simp [checkForEscAux, Ne.symm h.1, ih h.2]

lemma checkForEscAux_append_esc {l : List Nat} (r : List Nat) (h : 27 ∉ l) :
    checkForEscAux (l ++ 27 :: r) = (true, r) := by
  induction l with
  | nil => simp [checkForEscAux]
  | cons b rest ih =>
    simp only [List.mem_cons, not_or] at h
    simp [checkForEscAux, Ne.symm h.1, ih h.2]

/-- Claim C5 (amended): a poll on a disabled channel returns false and reads
nothing; on an enabled channel it returns true exactly when some pending byte
is ESC (27); it drains all pending bytes when no byte is ESC, and otherwise
consumes exactly the bytes up to and including the first ESC, leaving the
bytes after that ESC still pending. -/
theorem CheckForEsc_poll_contract (enabled : Bool) (pending : List Nat) :
    ((CheckForEsc enabled pending).1 = true ↔ (enabled = true ∧ 27 ∈ pending)) ∧
    (enabled = false → CheckForEsc enabled pending = (false, pending)) ∧
    (enabled = true → 27 ∉ pending → CheckForEsc enabled pending = (false, [])) ∧
    (∀ l r, enabled = true → pending = l ++ 27 :: r → 27 ∉ l →
      CheckForEsc enabled pending = (true, r)) := by
  refine ⟨?_, ?_, ?_, ?_⟩
  · cases enabled with
    | false => simp [CheckForEsc]
    | true => simp [CheckForEsc, checkForEscAux_fst_iff]
  · intro h; subst h; simp [CheckForEsc]
  · intro h hm; subst h; simp [CheckForEsc, checkForEscAux_of_not_mem hm]
  · intro l r h hp hl
    subst h; subst hp
    simp [CheckForEsc, checkForEscAux_append_esc r hl]

/-- Claim C5 counterexample: an enabled poll whose pending buffer holds ESC
followed by one more byte returns true but leaves the trailing byte unread, so
a call does not always drain all currently pending input bytes. -/
theorem CheckForEsc_leaves_bytes_after_esc :
    (CheckForEsc true [27, 65]).1 = true ∧ (CheckForEsc true [27, 65]).2 ≠ [] := by
  decide

/-- Witness for the amended C5 theorem at a concrete input. -/
theorem CheckForEsc_poll_contract_witness :
    CheckForEsc true [3, 27, 9] = (true, [9]) :=
  (CheckForEsc_poll_contract true [3, 27, 9]).2.2.2 [3] [9] rfl rfl (by decide)

/-! ## Async save queue: SaveQueue, SaveWorker, EnqueueSave, StopSaveWorker

Jobs are identified by a sequence marker (`Nat`).  The shared state is the
deque of queued jobs, the stop flag, whether the worker's loop has exited, and
ghost histories of all jobs ever enqueued and all jobs processed by the
worker, in order. -/

structure QueueState where
  jobs : List Nat
  stop : Bool
  workerDone : Bool
  processed : List Nat
  enqueued : List Nat
  deriving Repr, DecidableEq

/-- Actions of the two threads interleaving on the shared queue:
`enq j` is EnqueueSave (producer pushes to the back and notifies),
`stopSignal` is the body of StopSaveWorker setting the stop flag,
`work` is one pass of the SaveWorker loop: exit when the stop flag is set and
the queue is empty, otherwise pop the front job and process it (or keep
waiting on the condition variable when there is nothing to do). -/
inductive QueueAct
  | enq (j : Nat)
  | stopSignal
  | work
  deriving Repr, DecidableEq

def queueStep (s : QueueState) (a : QueueAct) : QueueState :=
  match a with
  | QueueAct.enq j =>
      { s with jobs := s.jobs ++ [j], enqueued := s.enqueued ++ [j] }
  | QueueAct.stopSignal => { s with stop := true }
  | QueueAct.work =>
      if s.workerDone then s
      else if s.stop ∧ s.jobs = [] then { s with workerDone := true }
      else
        match s.jobs with
        | [] => s
        | j :: rest => { s with jobs := rest, processed := s.processed ++ [j] }

def queueInit : QueueState :=
  { jobs := [], stop := false, workerDone := false, processed := [], enqueued := [] }

def queueRun (acts : List QueueAct) : QueueState := acts.foldl queueStep queueInit

def QueueAct.isEnq : QueueAct → Bool
  | QueueAct.enq _ => true
  | _ => false

/-- Protocol of the source: StopSaveWorker is called only after the
acquisition loop has finished enqueuing, so no EnqueueSave happens after the
stop flag is signaled. -/
def noEnqAfterStop : List QueueAct → Bool
  | [] => true
  | QueueAct.stopSignal :: rest => rest.all (fun a => !a.isEnq)
  | _ :: rest => noEnqAfterStop rest

lemma queueStep_work_done (s : QueueState) (h : s.workerDone = true) :
    queueStep s QueueAct.work = s := by
  simp [queueStep, h]

lemma queueStep_work_exit (s : QueueState) (h : s.workerDone = false)
    (hs : s.stop = true) (hj : s.jobs = []) :
    queueStep s QueueAct.work = { s with workerDone := true } := by
  simp [queueStep, h, hs, hj]

lemma queueStep_work_wait (s : QueueState) (h : s.workerDone = false)
    (hs : s.stop = false) (hj : s.jobs = []) :
    queueStep s QueueAct.work = s := by
  simp [queueStep, h, hs, hj]

lemma queueStep_work_pop (s : QueueState) (j : Nat) (rest : List Nat)
    (h : s.workerDone = false) (hj : s.jobs = j :: rest) :
    queueStep s QueueAct.work = { s with jobs := rest, processed := s.processed ++ [j] } := by
  simp [queueStep, h, hj]

lemma queueStep_enqueued_eq (s : QueueState) (a : QueueAct)
    (h : s.enqueued = s.processed ++ s.jobs) :
    (queueStep s a).enqueued = (queueStep s a).processed ++ (queueStep s a).jobs := by
  cases a with
  | enq j => simp [queueStep, h]
  | stopSignal => simpa [queueStep] using h
  | work =>
    cases hd : s.workerDone with
    | true => rw [queueStep_work_done s hd]; exact h
    | false =>
      cases hj : s.jobs with
      | nil =>
        cases hs : s.stop with
        | true => rw [queueStep_work_exit s hd hs hj]; exact h
        | false => rw [queueStep_work_wait s hd hs hj]; exact h
      | cons j rest =>
        rw [queueStep_work_pop s j rest hd hj]
        simp only []
        rw [h, hj]
        simp

lemma queueRunFrom_enqueued_eq (acts : List QueueAct) (s : QueueState)
    (h : s.enqueued = s.processed ++ s.jobs) :
    (acts.foldl queueStep s).enqueued =
      (acts.foldl queueStep s).processed ++ (acts.foldl queueStep s).jobs := by
  induction acts generalizing s with
  | nil => simpa using h
  | cons a rest ih => exact ih (queueStep s a) (queueStep_enqueued_eq s a h)

/-- Claim C6: FIFO with no loss — in every interleaving of EnqueueSave,
StopSaveWorker's stop signal and SaveWorker steps, the jobs processed so far,
in processing order, followed by the jobs still queued, are exactly the jobs
ever enqueued in enqueue order.  In particular the processed sequence is an
order-preserving prefix of the enqueue sequence: for every pair of jobs, the
one enqueued first is processed (written) first. -/
theorem saveQueue_fifo (acts : List QueueAct) :
    (queueRun acts).enqueued = (queueRun acts).processed ++ (queueRun acts).jobs :=
  queueRunFrom_enqueued_eq acts queueInit rfl

lemma all_noEnq_noEnqAfterStop {acts : List QueueAct}
    (h : acts.all (fun a => !a.isEnq) = true) : noEnqAfterStop acts = true := by
  induction acts with
  | nil => rfl
  | cons a rest ih =>
    simp only [List.all_cons, Bool.and_eq_true] at h
    cases a with
    | enq j => simp [QueueAct.isEnq] at h
    | stopSignal => simpa [noEnqAfterStop] using h.2
    | work => simpa [noEnqAfterStop] using ih h.2

/-- Worker-exit invariant, by induction over the remaining actions: if no
enqueue follows the stop signal (and none follows a state whose stop flag is
already set), then once the worker has exited, the stop flag is set, the queue
is empty, and everything enqueued has been processed. -/
lemma queueRunFrom_done_inv (acts : List QueueAct) (s : QueueState)
    (hgood : noEnqAfterStop acts = true)
    (hstop : s.stop = true → acts.all (fun a => !a.isEnq) = true)
    (hinv : s.workerDone = true → s.stop = true ∧ s.jobs = [])
    (henq : s.enqueued = s.processed ++ s.jobs) :
    (acts.foldl queueStep s).workerDone = true →
      (acts.foldl queueStep s).stop = true ∧
      (acts.foldl queueStep s).jobs = [] ∧
      (acts.foldl queueStep s).processed = (acts.foldl queueStep s).enqueued := by
  induction acts generalizing s with
  | nil =>
    intro hd
    simp only [List.foldl_nil] at hd ⊢
    rcases hinv hd with ⟨h1, h2⟩
    refine ⟨h1, h2, ?_⟩
    rw [henq, h2, List.append_nil]
  | cons a rest ih =>
    intro hd
    refine ih (queueStep s a) ?_ ?_ ?_ (queueStep_enqueued_eq s a henq) hd
    · cases a with
      | enq j =>
        simp only [noEnqAfterStop] at hgood
        exact hgood
      | stopSignal => exact all_noEnq_noEnqAfterStop (by simpa [noEnqAfterStop] using hgood)
      | work =>
        simp only [noEnqAfterStop] at hgood
        exact hgood
    · intro hstop'
      cases a with
      | enq j =>
        have : s.stop = true := by simpa [queueStep] using hstop'
        have := hstop this
        simp [QueueAct.isEnq] at this
      | stopSignal =>
        simp only [noEnqAfterStop] at hgood
        exact hgood
      | work =>
        have hs : s.stop = true := by
          cases hdw : s.workerDone with
          | true => rw [queueStep_work_done s hdw] at hstop'; exact hstop'
          | false =>
            cases hj : s.jobs with
            | nil =>
              cases hsb : s.stop with
              | true => rfl
              | false =>
                rw [queueStep_work_wait s hdw hsb hj] at hstop'
                rw [hsb] at hstop'
                exact hstop'
            | cons j rest' =>
              rw [queueStep_work_pop s j rest' hdw hj] at hstop'
              exact hstop'
        have := hstop hs
        simp only [List.all_cons, Bool.and_eq_true] at this
        exact this.2
    · intro hd'
      cases a with
      | enq j =>
        have hsd : s.workerDone = true := by simpa [queueStep] using hd'
        have hs := (hinv hsd).1
        have := hstop hs
        simp [QueueAct.isEnq] at this
      | stopSignal =>
        have hsd : s.workerDone = true := by simpa [queueStep] using hd'
        rcases hinv hsd with ⟨_, h2⟩
        simp [queueStep, h2]
      | work =>
        cases hdw : s.workerDone with
        | true =>
          rw [queueStep_work_done s hdw] at hd' ⊢
          exact hinv hd'
        | false =>
          cases hj : s.jobs with
          | nil =>
            cases hsb : s.stop with
            | true =>
              rw [queueStep_work_exit s hdw hsb hj]
              exact ⟨hsb, hj⟩
            | false =>
              rw [queueStep_work_wait s hdw hsb hj] at hd'
              rw [hd'] at hdw
              exact absurd hdw (by simp)
          | cons j rest' =>
            rw [queueStep_work_pop s j rest' hdw hj] at hd'
            simp only [] at hd'
            rw [hd'] at hdw
            exact absurd hdw (by simp)

/-- Claim C2: the persistence worker never exits while the queue is non-empty.
First conjunct: a single SaveWorker pass makes the worker exit only from a
state where the stop flag is set and the queue is empty.  Second conjunct: in
every interleaving in which no job is enqueued after the stop signal (the
protocol of StopSaveWorker, which the acquisition code follows), if the worker
has exited — which is exactly what the shutdown join waits for — then the
queue is empty and every enqueued SaveJob has been processed. -/
theorem saveWorker_drains_before_exit :
    (∀ s : QueueState, s.workerDone = false →
      (queueStep s QueueAct.work).workerDone = true →
      s.stop = true ∧ s.jobs = []) ∧
    (∀ acts : List QueueAct, noEnqAfterStop acts = true →
      (queueRun acts).workerDone = true →
      (queueRun acts).jobs = [] ∧
      (queueRun acts).processed = (queueRun acts).enqueued) := by
  constructor
  · intro s hnd hd
    cases hj : s.jobs with
    | nil =>
      cases hsb : s.stop with
      | true => exact ⟨rfl, rfl⟩
      | false =>
        rw [queueStep_work_wait s hnd hsb hj] at hd
        rw [hd] at hnd
        exact absurd hnd (by simp)
    | cons j rest' =>
      rw [queueStep_work_pop s j rest' hnd hj] at hd
      simp only [] at hd
      rw [hd] at hnd
      exact absurd hnd (by simp)
  · intro acts hgood hd
    have := queueRunFrom_done_inv acts queueInit hgood
      (by intro h; simp [queueInit] at h) (by intro h; simp [queueInit] at h) rfl hd
    exact ⟨this.2.1, this.2.2⟩

/-- Witness for C2: a concrete run — two jobs enqueued, stop signaled, then
three worker passes — ends with the worker exited, the queue drained, and both
jobs processed in order. -/
theorem saveWorker_drains_before_exit_witness :
    (queueRun [QueueAct.enq 5, QueueAct.enq 7, QueueAct.stopSignal,
       QueueAct.work, QueueAct.work, QueueAct.work]).jobs = [] ∧
    (queueRun [QueueAct.enq 5, QueueAct.enq 7, QueueAct.stopSignal,
       QueueAct.work, QueueAct.work, QueueAct.work]).processed =
      (queueRun [QueueAct.enq 5, QueueAct.enq 7, QueueAct.stopSignal,
       QueueAct.work, QueueAct.work, QueueAct.work]).enqueued :=
  saveWorker_drains_before_exit.2
    [QueueAct.enq 5, QueueAct.enq 7, QueueAct.stopSignal,
     QueueAct.work, QueueAct.work, QueueAct.work] (by decide) (by decide)

/-! ## Output directory: EnsureDir, CreateOutputDir

Paths are lists of characters (mirroring the char-indexed loop of the C++
`EnsureDir`).  The filesystem is the list of directories that exist plus the
set of paths whose creation fails for a reason other than "already exists"
(permissions, read-only mount, ...). -/

structure Fs where
  dirs : List (List Char)
  bad : List (List Char)
  deriving Repr, DecidableEq

inductive MkdirRes
  | ok
  | eexist
  | err
  deriving Repr, DecidableEq

/-- POSIX mkdir against the modelled filesystem: an existing directory yields
EEXIST, a path in the bad set fails with some other errno, anything else is
created. -/
def mkdir (p : List Char) (fs : Fs) : Fs × MkdirRes :=
  if p ∈ fs.dirs then (fs, MkdirRes.eexist)
  else if p ∈ fs.bad then (fs, MkdirRes.err)
  else ({ fs with dirs := p :: fs.dirs }, MkdirRes.ok)

/-- Separator handling of EnsureDir: `current += "/"` only when current is
longer than one character and does not already end in a slash, then append the
next path component. -/
def appendPart (current part : List Char) : List Char :=
  (if 1 < current.length ∧ current.getLast? ≠ some '/' then current ++ ['/'] else current)
    ++ part

/-- The character loop of EnsureDir: `part` is the component accumulated since
the last separator; at each separator or at the end of the path, a non-empty
component extends `current` and is created with mkdir, where EEXIST is not an
error and any other failure aborts (the C++ returns false; here `none`). -/
def ensureDirGo (fs : Fs) (current part : List Char) : List Char → Option Fs
  | [] =>
      if part = [] then some fs
      else
        let cur := appendPart current part
        match mkdir cur fs with
        | (fs1, MkdirRes.ok) => some fs1
        | (fs1, MkdirRes.eexist) => some fs1
        | (_, MkdirRes.err) => none
  | c :: rest =>
      if c = '/' then
        if part = [] then ensureDirGo fs current [] rest
        else
          let cur := appendPart current part
          match mkdir cur fs with
          | (fs1, MkdirRes.ok) => ensureDirGo fs1 cur [] rest
          | (fs1, MkdirRes.eexist) => ensureDirGo fs1 cur [] rest
          | (_, MkdirRes.err) => none
      else ensureDirGo fs current (part ++ [c]) rest

/-- EnsureDir: an empty path fails; an absolute path starts the accumulator at
"/" and the scan after the leading slash; a relative path starts with an empty
accumulator.  Returns the filesystem after creating every missing component,
or `none` when some component fails for a reason other than EEXIST. -/
def EnsureDir (path : List Char) (fs : Fs) : Option Fs :=
  match path with
  | [] => none
  | c :: rest =>
      if c = '/' then ensureDirGo fs ['/'] [] rest
      else ensureDirGo fs [] [] (c :: rest)

/-- CreateOutputDir: builds `{executableDir}/imgs/{runTimestamp}` and runs
EnsureDir on it, throwing (here `none`) when EnsureDir fails; on success the
resolved path is returned alongside the updated filesystem. -/
def CreateOutputDir (exeDir runTimestamp : List Char) (fs : Fs) :
    Option (List Char × Fs) :=
  let outputDir := exeDir ++ ('/' :: 'i' :: 'm' :: 'g' :: 's' :: '/' :: []) ++ runTimestamp
  match EnsureDir outputDir fs with
  | some fs1 => some (outputDir, fs1)
  | none => none

lemma mkdir_of_mem {p : List Char} {fs : Fs} (h : p ∈ fs.dirs) :
    mkdir p fs = (fs, MkdirRes.eexist) := by
  simp [mkdir, h]

lemma mkdir_ok_spec {p : List Char} {fs fs2 : Fs}
    (h : mkdir p fs = (fs2, MkdirRes.ok)) :
    fs2 = { fs with dirs := p :: fs.dirs } := by
  by_cases hm : p ∈ fs.dirs
  · rw [mkdir_of_mem hm] at h
    simp at h
  · by_cases hb : p ∈ fs.bad
    · simp [mkdir, hm, hb] at h
    · simp only [mkdir, hm, hb, if_false] at h
      simp only [Prod.mk.injEq] at h
      exact h.1.symm

lemma mkdir_eexist_spec {p : List Char} {fs fs2 : Fs}
    (h : mkdir p fs = (fs2, MkdirRes.eexist)) :
    fs2 = fs ∧ p ∈ fs.dirs := by
  by_cases hm : p ∈ fs.dirs
  · rw [mkdir_of_mem hm] at h
    simp only [Prod.mk.injEq] at h
    exact ⟨h.1.symm, hm⟩
  · by_cases hb : p ∈ fs.bad
    · simp [mkdir, hm, hb] at h
    · simp [mkdir, hm, hb] at h

lemma mkdir_ok_mem {p : List Char} {fs fs2 : Fs}
    (h : mkdir p fs = (fs2, MkdirRes.ok)) : p ∈ fs2.dirs := by
  rw [mkdir_ok_spec h]
  exact List.mem_cons_self _ _

lemma mkdir_dirs_mono {p : List Char} {fs fs2 : Fs} {r : MkdirRes}
    (h : mkdir p fs = (fs2, r)) : ∀ q ∈ fs.dirs, q ∈ fs2.dirs := by
  intro q hq
  cases r with
  | ok => rw [mkdir_ok_spec h]; exact List.mem_cons_of_mem p hq
  | eexist => rw [(mkdir_eexist_spec h).1]; exact hq
  | err =>
    simp only [mkdir] at h
    split at h
    · simp at h
    · split at h
      · simp only [Prod.mk.injEq] at h
        rw [← h.1]
        exact hq
      · simp at h

lemma ensureDirGo_dirs_mono (rest : List Char) :
    ∀ fs current part fs1, ensureDirGo fs current part rest = some fs1 →
      ∀ q ∈ fs.dirs, q ∈ fs1.dirs := by
  induction rest with
  | nil =>
    intro fs current part fs1 h q hq
    simp only [ensureDirGo] at h
    by_cases hp : part = []
    · simp only [hp, if_true] at h
      cases h
      exact hq
    · simp only [hp, if_false] at h
      rcases hmk : mkdir (appendPart current part) fs with ⟨fs2, res⟩
      rw [hmk] at h
      have hmono := mkdir_dirs_mono hmk q hq
      cases res with
      | ok => cases h; exact hmono
      | eexist => cases h; exact hmono
      | err => exact Option.noConfusion h
  | cons c rest ih =>
    intro fs current part fs1 h q hq
    simp only [ensureDirGo] at h
    by_cases hc : c = '/'
    · simp only [hc, if_true] at h
      by_cases hp : part = []
      · simp only [hp, if_true] at h
        exact ih fs current [] fs1 h q hq
      · simp only [hp, if_false] at h
        rcases hmk : mkdir (appendPart current part) fs with ⟨fs2, res⟩
        rw [hmk] at h
        have hmono := mkdir_dirs_mono hmk q hq
        cases res with
        | ok => exact ih fs2 (appendPart current part) [] fs1 h q hmono
        | eexist => exact ih fs2 (appendPart current part) [] fs1 h q hmono
        | err => exact Option.noConfusion h
    · simp only [hc, if_false] at h
      exact ih fs current (part ++ [c]) fs1 h q hq

lemma ensureDirGo_idem (rest : List Char) :
    ∀ fs current part fs1, ensureDirGo fs current part rest = some fs1 →
      ensureDirGo fs1 current part rest = some fs1 := by
  induction rest with
  | nil =>
    intro fs current part fs1 h
    simp only [ensureDirGo] at h ⊢
    by_cases hp : part = []
    · simp only [hp, if_true] at h ⊢
    · simp only [hp, if_false] at h ⊢
      rcases hmk : mkdir (appendPart current part) fs with ⟨fs2, res⟩
      rw [hmk] at h
      cases res with
      | ok =>
        cases h
        rw [mkdir_of_mem (mkdir_ok_mem hmk)]
      | eexist =>
        cases h
        rcases mkdir_eexist_spec hmk with ⟨hfs, hmem⟩
        subst hfs
        rw [mkdir_of_mem hmem]
      | err => exact Option.noConfusion h
  | cons c rest ih =>
    intro fs current part fs1 h
    simp only [ensureDirGo] at h ⊢
    by_cases hc : c = '/'
    · simp only [hc, if_true] at h ⊢
      by_cases hp : part = []
      · simp only [hp, if_true] at h ⊢
        exact ih fs current [] fs1 h
      · simp only [hp, if_false] at h ⊢
        rcases hmk : mkdir (appendPart current part) fs with ⟨fs2, res⟩
        rw [hmk] at h
        cases res with
        | ok =>
          have hmem1 : appendPart current part ∈ fs1.dirs :=
            ensureDirGo_dirs_mono rest fs2 (appendPart current part) [] fs1 h _
              (mkdir_ok_mem hmk)
          rw [mkdir_of_mem hmem1]
          exact ih fs2 (appendPart current part) [] fs1 h
        | eexist =>
          rcases mkdir_eexist_spec hmk with ⟨hfs, hmem⟩
          subst hfs
          have hmem1 : appendPart current part ∈ fs1.dirs :=
            ensureDirGo_dirs_mono rest fs2 (appendPart current part) [] fs1 h _ hmem
          rw [mkdir_of_mem hmem1]
          exact ih fs2 (appendPart current part) [] fs1 h
        | err => exact Option.noConfusion h
    · simp only [hc, if_false] at h ⊢
      exact ih fs current (part ++ [c]) fs1 h

/-- Claim C8: output-directory creation is idempotent.  A path component that
already exists is reported as EEXIST and leaves the filesystem unchanged, so
it is never an error; a successful EnsureDir run re-run on the resulting
filesystem succeeds again without changing anything; and CreateOutputDir run
twice for the same executable directory and run timestamp succeeds both times
and yields the same output path. -/
theorem ensureDir_idempotent :
    (∀ p fs, p ∈ fs.dirs → mkdir p fs = (fs, MkdirRes.eexist)) ∧
    (∀ path fs fs1, EnsureDir path fs = some fs1 → EnsureDir path fs1 = some fs1) ∧
    (∀ exeDir runTimestamp fs out fs1,
      CreateOutputDir exeDir runTimestamp fs = some (out, fs1) →
      CreateOutputDir exeDir runTimestamp fs1 = some (out, fs1)) := by
  have hens : ∀ path fs fs1, EnsureDir path fs = some fs1 → EnsureDir path fs1 = some fs1 := by
    intro path fs fs1 h
    cases path with
    | nil => simp [EnsureDir] at h
    | cons c rest =>
      simp only [EnsureDir] at h ⊢
      by_cases hc : c = '/'
      · simp only [hc, if_true] at h ⊢
        exact ensureDirGo_idem rest fs ['/'] [] fs1 h
      · simp only [hc, if_false] at h ⊢
        exact ensureDirGo_idem (c :: rest) fs [] [] fs1 h
  refine ⟨fun p fs h => mkdir_of_mem h, hens, ?_⟩
  intro exeDir runTimestamp fs out fs1 h
  simp only [CreateOutputDir] at h ⊢
  rcases he : EnsureDir (exeDir ++ ('/' :: 'i' :: 'm' :: 'g' :: 's' :: '/' :: []) ++ runTimestamp) fs with _ | fs2
  · rw [he] at h; simp at h
  · rw [he] at h
    simp only [Option.some.injEq, Prod.mk.injEq] at h
    rcases h with ⟨hout, hfs⟩
    subst hfs
    rw [hens _ _ _ he]
    simp [hout]

/-- Witness for C8 at a concrete input: creating `/a/b` in an empty filesystem
succeeds, and re-running EnsureDir and CreateOutputDir on the result succeeds
with the same outcome. -/
theorem ensureDir_idempotent_witness :
    EnsureDir ['/', 'a', '/', 'b'] ⟨[['/', 'a', '/', 'b'], ['/', 'a']], []⟩ =
      some ⟨[['/', 'a', '/', 'b'], ['/', 'a']], []⟩ :=
  ensureDir_idempotent.2.1 ['/', 'a', '/', 'b'] ⟨[], []⟩
    ⟨[['/', 'a', '/', 'b'], ['/', 'a']], []⟩ (by decide)

/-! ## AcquireImages: acquisition loop

The device and the saving/streaming side effects are embedded as an emitted
event trace.  Each loop iteration consumes one device response (a frame, a
timeout exception, or a non-timeout exception that the loop does not catch)
together with the input bytes that arrived at the terminal since the previous
ESC poll. -/

inductive NodeMapKind
  | device
  | tlStream
  | tlDevice
  deriving Repr, DecidableEq

inductive Event
  | getNode (m : NodeMapKind) (key : String)
  | setNode (m : NodeMapKind) (key : String) (value : String)
  | startStream
  | enqueueSave (frameId timestampNs : Nat)
  | requeueBuffer (frameId : Nat)
  | pollEsc
  | stopStream
  deriving Repr, DecidableEq

/-- One GetImage outcome: a frame with its id and nanosecond timestamp, a
TimeoutException (caught by the loop), or any other exception (not caught, so
it unwinds out of AcquireImages). -/
inductive AcqResult
  | frame (frameId timestampNs : Nat)
  | timeout
  | fatal
  deriving Repr, DecidableEq

structure LoopState where
  imageCount : Nat
  unreceivedImageCount : Nat
  savedImageCount : Nat
  escPressed : Bool
  leftover : List Nat
  deriving Repr, DecidableEq

inductive StepOutcome
  | next
  | brk
  | err
  deriving Repr, DecidableEq

/-- One iteration of the while loop of AcquireImages.  On a frame: print info,
enqueue a SaveJob iff fewer than 10 frames were handed to persistence (the
counter increments exactly there), requeue the buffer, then poll ESC and
evaluate the stop conditions.  On a timeout: count it, poll ESC, and break
only if ESC was seen.  On any other exception: unwind (`err`). -/
def loopIter (isMaster enabled : Bool) (st : LoopState) (ev : AcqResult)
    (newBytes : List Nat) : List Event × LoopState × StepOutcome :=
  match ev with
  | AcqResult.fatal =>
      ([], { st with imageCount := st.imageCount + 1 }, StepOutcome.err)
  | AcqResult.timeout =>
      let st1 := { st with imageCount := st.imageCount + 1,
                           unreceivedImageCount := st.unreceivedImageCount + 1 }
      let buf := st1.leftover ++ newBytes
      let st2 := { st1 with leftover := (CheckForEsc enabled buf).2 }
      if (CheckForEsc enabled buf).1 then
        ([Event.pollEsc], { st2 with escPressed := true }, StepOutcome.brk)
      else
        ([Event.pollEsc], st2, StepOutcome.next)
  | AcqResult.frame fid ts =>
      let st1 := { st with imageCount := st.imageCount + 1 }
      let st2 :=
        if st1.savedImageCount < 10 then
          { st1 with savedImageCount := st1.savedImageCount + 1 }
        else st1
      let evs :=
        (if st1.savedImageCount < 10 then [Event.enqueueSave fid ts] else [])
          ++ [Event.requeueBuffer fid, Event.pollEsc]
      let buf := st2.leftover ++ newBytes
      let st3 := { st2 with leftover := (CheckForEsc enabled buf).2,
                            escPressed := st2.escPressed || (CheckForEsc enabled buf).1 }
      if st3.escPressed then (evs, st3, StepOutcome.brk)
      else if isMaster = false ∧ 10 ≤ st3.savedImageCount then
        (evs, st3, StepOutcome.brk)
      else (evs, st3, StepOutcome.next)

/-- How the loop left: `broke` for the explicit break statements (ESC, or the
listener save limit), `errored` for an exception unwinding out of the loop,
`ranOut` when the modelled finite device trace ends with the loop still
running (the observed prefix of an ongoing run). -/
inductive ExitKind
  | ranOut
  | broke
  | errored
  deriving Repr, DecidableEq

def runLoop (isMaster enabled : Bool) :
    List (AcqResult × List Nat) → LoopState → List Event × LoopState × ExitKind
  | [], st => ([], st, ExitKind.ranOut)
  | (ev, bs) :: rest, st =>
      let r := loopIter isMaster enabled st ev bs
      match r.2.2 with
      | StepOutcome.next =>
          let r2 := runLoop isMaster enabled rest r.2.1
          (r.1 ++ r2.1, r2.2.1, r2.2.2)
      | StepOutcome.brk => (r.1, r.2.1, ExitKind.broke)
      | StepOutcome.err => (r.1, r.2.1, ExitKind.errored)

def initLoopState : LoopState :=
  { imageCount := 0, unreceivedImageCount := 0, savedImageCount := 0,
    escPressed := false, leftover := [] }

/-- Role decision of the source: master iff DeviceAccessStatus is ReadWrite. -/
def acqIsMaster (accessStatus : String) : Bool := accessStatus = "ReadWrite"

/-- Device calls of AcquireImages before the loop: read the initial
AcquisitionMode, enable multicast on the TL stream map (unconditionally, for
master and listener alike), read DeviceAccessStatus, then — master only —
set AcquisitionMode to Continuous and the two stream-robustness settings,
and finally start the stream. -/
def acquirePre (accessStatus : String) : List Event :=
  [Event.getNode NodeMapKind.device "AcquisitionMode",
   Event.setNode NodeMapKind.tlStream "StreamMulticastEnable" "true",
   Event.getNode NodeMapKind.tlDevice "DeviceAccessStatus"]
    ++ (if acqIsMaster accessStatus then
          [Event.setNode NodeMapKind.device "AcquisitionMode" "Continuous",
           Event.setNode NodeMapKind.tlStream "StreamAutoNegotiatePacketSize" "true",
           Event.setNode NodeMapKind.tlStream "StreamPacketResendEnable" "true"]
        else [])
    ++ [Event.startStream]

/-- Device calls of AcquireImages after the loop: stop the stream and, for the
master, restore the initial AcquisitionMode. -/
def acquirePost (accessStatus initialMode : String) : List Event :=
  Event.stopStream ::
    (if acqIsMaster accessStatus then
      [Event.setNode NodeMapKind.device "AcquisitionMode" initialMode]
    else [])

/-- AcquireImages: the emitted device-call trace and whether the function
returned normally.  The post-loop StopStream and AcquisitionMode restore are
written straight-line after the loop with no try/catch or guard around them,
so when an exception unwinds out of the loop (`errored`) they are skipped and
the function exits abnormally. -/
def AcquireImages (accessStatus initialMode : String) (isTty : Bool)
    (inputs : List (AcqResult × List Nat)) : List Event × Bool :=
  let r := runLoop (acqIsMaster accessStatus) isTty inputs initLoopState
  match r.2.2 with
  | ExitKind.errored => (acquirePre accessStatus ++ r.1, false)
  | _ => (acquirePre accessStatus ++ r.1 ++ acquirePost accessStatus initialMode, true)

def isEnqEvent : Event → Bool
  | Event.enqueueSave _ _ => true
  | _ => false

def isRequeueEvent : Event → Bool
  | Event.requeueBuffer _ => true
  | _ => false

/-- Events the loop body can emit (no stream control, no node writes). -/
def isLoopEvent : Event → Bool
  | Event.enqueueSave _ _ => true
  | Event.requeueBuffer _ => true
  | Event.pollEsc => true
  | _ => false

def countEnq (tr : List Event) : Nat := tr.countP isEnqEvent
def countReq (tr : List Event) : Nat := tr.countP isRequeueEvent

lemma loopIter_fatal (m e : Bool) (st : LoopState) (bs : List Nat) :
    loopIter m e st AcqResult.fatal bs =
      ([], { st with imageCount := st.imageCount + 1 }, StepOutcome.err) := rfl

lemma loopIter_frame_evs (m e : Bool) (st : LoopState) (fid ts : Nat) (bs : List Nat) :
    (loopIter m e st (AcqResult.frame fid ts) bs).1 =
      (if st.savedImageCount < 10 then [Event.enqueueSave fid ts] else [])
        ++ [Event.requeueBuffer fid, Event.pollEsc] := by
  simp only [loopIter]
  repeat' split
  all_goals rfl

lemma loopIter_frame_saved (m e : Bool) (st : LoopState) (fid ts : Nat) (bs : List Nat) :
    (loopIter m e st (AcqResult.frame fid ts) bs).2.1.savedImageCount =
      if st.savedImageCount < 10 then st.savedImageCount + 1 else st.savedImageCount := by
  simp only [loopIter]
  repeat' split
  all_goals rfl

lemma loopIter_timeout_evs (m e : Bool) (st : LoopState) (bs : List Nat) :
    (loopIter m e st AcqResult.timeout bs).1 = [Event.pollEsc] := by
  simp only [loopIter]
  split <;> rfl

lemma loopIter_timeout_saved (m e : Bool) (st : LoopState) (bs : List Nat) :
    (loopIter m e st AcqResult.timeout bs).2.1.savedImageCount = st.savedImageCount := by
  simp only [loopIter]
  split <;> rfl

/-- Claim C9: a single-frame timeout never itself terminates the loop.  A
timeout iteration emits exactly one cancellation poll, increments the
unreceived counter (and the attempt counter), raises no error, and breaks
exactly when that one poll reports ESC; otherwise the loop continues. -/
theorem timeout_never_terminates (m e : Bool) (st : LoopState) (bs : List Nat) :
    (loopIter m e st AcqResult.timeout bs).1 = [Event.pollEsc] ∧
    (loopIter m e st AcqResult.timeout bs).2.1.unreceivedImageCount =
      st.unreceivedImageCount + 1 ∧
    (loopIter m e st AcqResult.timeout bs).2.1.imageCount = st.imageCount + 1 ∧
    (loopIter m e st AcqResult.timeout bs).2.2 ≠ StepOutcome.err ∧
    ((loopIter m e st AcqResult.timeout bs).2.2 = StepOutcome.brk ↔
      (CheckForEsc e (st.leftover ++ bs)).1 = true) ∧
    ((loopIter m e st AcqResult.timeout bs).2.2 = StepOutcome.next ↔
      (CheckForEsc e (st.leftover ++ bs)).1 = false) := by
  simp only [loopIter]
  cases hesc : (CheckForEsc e (st.leftover ++ bs)).1 with
  | true => simp [hesc]
  | false => simp [hesc]

/-- Witness for C9 at a concrete input: a timeout iteration with one pending
non-ESC byte emits exactly one poll and continues. -/
theorem timeout_never_terminates_witness :
    (loopIter true true initLoopState AcqResult.timeout [65]).1 = [Event.pollEsc] ∧
    ((loopIter true true initLoopState AcqResult.timeout [65]).2.2 = StepOutcome.next ↔
      (CheckForEsc true (initLoopState.leftover ++ [65])).1 = false) :=
  ⟨(timeout_never_terminates true true initLoopState [65]).1,
   (timeout_never_terminates true true initLoopState [65]).2.2.2.2.2⟩

/-- Claim C7: on every successful frame retrieval the borrowed buffer is
requeued before any stop condition is evaluated: the iteration's event list
always ends with the requeue followed by the single cancellation poll — the
poll and the break decisions come strictly after the requeue — and the only
event that may precede the requeue is the enqueue of the save copy.  This
holds on every path, so no iteration exits while still holding the frame. -/
theorem frame_requeued_before_stop_checks (m e : Bool) (st : LoopState)
    (fid ts : Nat) (bs : List Nat) :
    ∃ pre, (loopIter m e st (AcqResult.frame fid ts) bs).1 =
        pre ++ [Event.requeueBuffer fid, Event.pollEsc] ∧
      (pre = [] ∨ pre = [Event.enqueueSave fid ts]) := by
  refine ⟨if st.savedImageCount < 10 then [Event.enqueueSave fid ts] else [], ?_, ?_⟩
  · exact loopIter_frame_evs m e st fid ts bs
  · split
    · exact Or.inr rfl
    · exact Or.inl rfl

lemma runLoop_saved_counts (m e : Bool) :
    ∀ (inputs : List (AcqResult × List Nat)) (st : LoopState),
      st.savedImageCount ≤ 10 →
      st.savedImageCount + countEnq (runLoop m e inputs st).1 =
          (runLoop m e inputs st).2.1.savedImageCount ∧
        (runLoop m e inputs st).2.1.savedImageCount =
          min 10 (st.savedImageCount + countReq (runLoop m e inputs st).1) := by
  intro inputs
  induction inputs with
  | nil =>
    intro st hst
    simp only [runLoop, countEnq, countReq, List.countP_nil]
    omega
  | cons p rest ih =>
    rcases p with ⟨ev, bs⟩
    intro st hst
    have hiter : (loopIter m e st ev bs).2.1.savedImageCount =
        min 10 (st.savedImageCount + countReq (loopIter m e st ev bs).1) ∧
        st.savedImageCount + countEnq (loopIter m e st ev bs).1 =
          (loopIter m e st ev bs).2.1.savedImageCount := by
      cases ev with
      | frame fid ts =>
        rw [loopIter_frame_saved, loopIter_frame_evs]
        by_cases hs : st.savedImageCount < 10
        · simp [hs, countEnq, countReq, isEnqEvent, isRequeueEvent]
          omega
        · simp [hs, countEnq, countReq, isEnqEvent, isRequeueEvent]
          omega
      | timeout =>
        rw [loopIter_timeout_saved, loopIter_timeout_evs]
        simp [countEnq, countReq, isEnqEvent, isRequeueEvent]
        omega
      | fatal =>
        rw [loopIter_fatal]
        simp [countEnq, countReq]
        omega
    have hle : (loopIter m e st ev bs).2.1.savedImageCount ≤ 10 := by
      rw [hiter.1]; omega
    simp only [runLoop]
    cases hout : (loopIter m e st ev bs).2.2 with
    | next =>
      have := ih (loopIter m e st ev bs).2.1 hle
      simp only [hout]
      simp only [countEnq, countReq, List.countP_append] at this ⊢
      simp only [countEnq, countReq] at hiter
      omega
    | brk =>
      simp only [hout]
      simp only [countEnq, countReq] at hiter ⊢
      omega
    | err =>
      simp only [hout]
      simp only [countEnq, countReq] at hiter ⊢
      omega

/-- Claim C1: for every run (every device-response trace and terminal input),
the number of SaveJobs ever enqueued by the acquisition loop equals
min(10, number of frames successfully retrieved before the loop stops) —
each retrieved frame is requeued exactly once, so retrieved frames are counted
by requeue events — and the saved-frame counter equals the number of enqueues,
i.e. it increments exactly on enqueue. -/
theorem enqueue_count_eq_min_ten_retrieved (m e : Bool)
    (inputs : List (AcqResult × List Nat)) :
    countEnq (runLoop m e inputs initLoopState).1 =
      min 10 (countReq (runLoop m e inputs initLoopState).1) ∧
    countEnq (runLoop m e inputs initLoopState).1 =
      (runLoop m e inputs initLoopState).2.1.savedImageCount := by
  have h := runLoop_saved_counts m e inputs initLoopState (by simp [initLoopState])
  have h0 : initLoopState.savedImageCount = 0 := rfl
  rw [h0] at h
  omega

lemma loopIter_events_are_loop_events (m e : Bool) (st : LoopState)
    (ev : AcqResult) (bs : List Nat) :
    ∀ x ∈ (loopIter m e st ev bs).1, isLoopEvent x = true := by
  intro x hx
  cases ev with
  | frame fid ts =>
    rw [loopIter_frame_evs] at hx
    rcases List.mem_append.mp hx with h | h
    · split at h
      · simp only [List.mem_singleton] at h
        subst h
        rfl
      · simp at h
    · simp only [List.mem_cons, List.mem_singleton] at h
      rcases h with h | h | h
      · subst h; rfl
      · subst h; rfl
      · exact absurd h (by simp)
  | timeout =>
    rw [loopIter_timeout_evs] at hx
    simp only [List.mem_singleton] at hx
    subst hx
    rfl
  | fatal =>
    rw [loopIter_fatal] at hx
    simp at hx

lemma runLoop_events_are_loop_events (m e : Bool) :
    ∀ (inputs : List (AcqResult × List Nat)) (st : LoopState),
      ∀ x ∈ (runLoop m e inputs st).1, isLoopEvent x = true := by
  intro inputs
  induction inputs with
  | nil =>
    intro st x hx
    simp [runLoop] at hx
  | cons p rest ih =>
    rcases p with ⟨ev, bs⟩
    intro st x hx
    simp only [runLoop] at hx
    cases hout : (loopIter m e st ev bs).2.2 with
    | next =>
      rw [hout] at hx
      simp only [List.mem_append] at hx
      rcases hx with hx | hx
      · exact loopIter_events_are_loop_events m e st ev bs x hx
      · exact ih (loopIter m e st ev bs).2.1 x hx
    | brk =>
      rw [hout] at hx
      exact loopIter_events_are_loop_events m e st ev bs x hx
    | err =>
      rw [hout] at hx
      exact loopIter_events_are_loop_events m e st ev bs x hx

/-- Claim C4 (amended): when the acquisition loop exits via one of its break
statements (cancellation or the listener save limit) — and likewise when the
modelled run completes normally — the full trace is the pre-loop device calls,
then loop events only (which never include stream control or node writes),
then exactly one StopStream, followed — exactly when the role is Master — by
exactly one restore of the original AcquisitionMode value; so the stream is
stopped and the mode restored exactly once on these exits.  (On an error
unwind this fails: see the counterexample theorem.) -/
theorem acquire_cleanup_on_break (accessStatus initialMode : String) (isTty : Bool)
    (inputs : List (AcqResult × List Nat))
    (h : (runLoop (acqIsMaster accessStatus) isTty inputs initLoopState).2.2 =
      ExitKind.broke) :
    (AcquireImages accessStatus initialMode isTty inputs).1 =
      acquirePre accessStatus
        ++ (runLoop (acqIsMaster accessStatus) isTty inputs initLoopState).1
        ++ acquirePost accessStatus initialMode ∧
    (AcquireImages accessStatus initialMode isTty inputs).2 = true ∧
    (∀ x ∈ (runLoop (acqIsMaster accessStatus) isTty inputs initLoopState).1,
      isLoopEvent x = true) ∧
    Event.stopStream ∉ acquirePre accessStatus ∧
    ((AcquireImages accessStatus initialMode isTty inputs).1.countP
      (fun x => decide (x = Event.stopStream))) = 1 ∧
    (acqIsMaster accessStatus = true →
      acquirePost accessStatus initialMode =
        [Event.stopStream, Event.setNode NodeMapKind.device "AcquisitionMode" initialMode]) ∧
    (acqIsMaster accessStatus = false →
      acquirePost accessStatus initialMode = [Event.stopStream]) := by
  have htr : (AcquireImages accessStatus initialMode isTty inputs).1 =
      acquirePre accessStatus
        ++ (runLoop (acqIsMaster accessStatus) isTty inputs initLoopState).1
        ++ acquirePost accessStatus initialMode := by
    simp only [AcquireImages, h]
  have hok : (AcquireImages accessStatus initialMode isTty inputs).2 = true := by
    simp only [AcquireImages, h]
  have hpre : Event.stopStream ∉ acquirePre accessStatus := by
    cases hm : acqIsMaster accessStatus with
    | true => simp [acquirePre, hm]
    | false => simp [acquirePre, hm]
  have hloopzero : ((runLoop (acqIsMaster accessStatus) isTty inputs initLoopState).1.countP
      (fun x => decide (x = Event.stopStream))) = 0 := by
    rw [List.countP_eq_zero]
    intro x hx
    have := runLoop_events_are_loop_events (acqIsMaster accessStatus) isTty inputs
      initLoopState x hx
    simp only [decide_eq_true_eq]
    intro hxs
    rw [hxs] at this
    exact absurd this (by simp [isLoopEvent])
  have hprezero : ((acquirePre accessStatus).countP
      (fun x => decide (x = Event.stopStream))) = 0 := by
    rw [List.countP_eq_zero]
    intro x hx
    simp only [decide_eq_true_eq]
    intro hxs
    rw [hxs] at hx
    exact hpre hx
  have hpost : ((acquirePost accessStatus initialMode).countP
      (fun x => decide (x = Event.stopStream))) = 1 := by
    cases hm : acqIsMaster accessStatus with
    | true => simp [acquirePost, hm]
    | false => simp [acquirePost, hm]
  refine ⟨htr, hok, runLoop_events_are_loop_events _ _ _ _, hpre, ?_, ?_, ?_⟩
  · rw [htr]
    simp only [List.countP_append]
    rw [hloopzero, hprezero, hpost]
  · intro hm
    simp [acquirePost, hm]
  · intro hm
    simp [acquirePost, hm]

/-- Witness for C4 at a concrete input: a master run cancelled by ESC on the
first frame. -/
theorem acquire_cleanup_on_break_witness :
    (AcquireImages "ReadWrite" "MultiFrame" true [(AcqResult.frame 1 2, [27])]).2 = true ∧
    ((AcquireImages "ReadWrite" "MultiFrame" true [(AcqResult.frame 1 2, [27])]).1.countP
      (fun x => decide (x = Event.stopStream))) = 1 :=
  ⟨(acquire_cleanup_on_break "ReadWrite" "MultiFrame" true
      [(AcqResult.frame 1 2, [27])] (by decide)).2.1,
   (acquire_cleanup_on_break "ReadWrite" "MultiFrame" true
      [(AcqResult.frame 1 2, [27])] (by decide)).2.2.2.2.1⟩

/-- Claim C4 counterexample: when a non-timeout exception unwinds out of the
loop (GetImage throwing anything but TimeoutException), AcquireImages exits
abnormally without ever emitting StopStream — and, for a master, without
restoring AcquisitionMode — because the post-loop cleanup is straight-line
code with no guard. -/
theorem acquire_no_stop_on_error_unwind :
    (AcquireImages "ReadWrite" "MultiFrame" false [(AcqResult.fatal, [])]).2 = false ∧
    Event.stopStream ∉ (AcquireImages "ReadWrite" "MultiFrame" false [(AcqResult.fatal, [])]).1 ∧
    Event.setNode NodeMapKind.device "AcquisitionMode" "MultiFrame" ∉
      (AcquireImages "ReadWrite" "MultiFrame" false [(AcqResult.fatal, [])]).1 := by
  decide

/-- Claim C3 (amended): in a run whose device access status is not ReadWrite
(the Listener role), every set-node-value call AcquireImages ever issues is
the transport-layer StreamMulticastEnable write — which stays writable under
read-only access — and in particular no set-node-value call ever targets the
device's feature node map. -/
theorem listener_sets_only_tl_multicast (accessStatus initialMode : String)
    (isTty : Bool) (inputs : List (AcqResult × List Nat))
    (h : acqIsMaster accessStatus = false) :
    ∀ m k v, Event.setNode m k v ∈ (AcquireImages accessStatus initialMode isTty inputs).1 →
      m = NodeMapKind.tlStream ∧ k = "StreamMulticastEnable" ∧ v = "true" := by
  intro m k v hmem
  have hpre : ∀ m1 k1 v1,
      Event.setNode m1 k1 v1 ∈ acquirePre accessStatus →
      m1 = NodeMapKind.tlStream ∧ k1 = "StreamMulticastEnable" ∧ v1 = "true" := by
    intro m1 k1 v1 hm1
    simp [acquirePre, h] at hm1
    exact hm1
  have hloop : ∀ m1 k1 v1,
      Event.setNode m1 k1 v1 ∉
        (runLoop (acqIsMaster accessStatus) isTty inputs initLoopState).1 := by
    intro m1 k1 v1 hm1
    have := runLoop_events_are_loop_events (acqIsMaster accessStatus) isTty inputs
      initLoopState _ hm1
    exact absurd this (by simp [isLoopEvent])
  have hpost : ∀ m1 k1 v1,
      Event.setNode m1 k1 v1 ∉ acquirePost accessStatus initialMode := by
    intro m1 k1 v1 hm1
    simp [acquirePost, h] at hm1
  cases hek : (runLoop (acqIsMaster accessStatus) isTty inputs initLoopState).2.2 with
  | ranOut =>
    simp only [AcquireImages, hek, List.mem_append] at hmem
    rcases hmem with (hm2 | hm2) | hm2
    · exact hpre m k v hm2
    · exact absurd hm2 (hloop m k v)
    · exact absurd hm2 (hpost m k v)
  | broke =>
    simp only [AcquireImages, hek, List.mem_append] at hmem
    rcases hmem with (hm2 | hm2) | hm2
    · exact hpre m k v hm2
    · exact absurd hm2 (hloop m k v)
    · exact absurd hm2 (hpost m k v)
  | errored =>
    simp only [AcquireImages, hek, List.mem_append] at hmem
    rcases hmem with hm2 | hm2
    · exact hpre m k v hm2
    · exact absurd hm2 (hloop m k v)

/-- Witness for the amended C3 theorem at a concrete listener run. -/
theorem listener_sets_only_tl_multicast_witness :
    NodeMapKind.tlStream = NodeMapKind.tlStream ∧
      "StreamMulticastEnable" = "StreamMulticastEnable" ∧ "true" = "true" :=
  listener_sets_only_tl_multicast "ReadOnly" "MultiFrame" false [] (by decide)
    NodeMapKind.tlStream "StreamMulticastEnable" "true" (by decide)

/-- Claim C3 counterexample: a Listener run does issue a set-node-value call on
the device handle — the unconditional transport-layer StreamMulticastEnable
write that precedes the role check — so the claim that a listener run never
issues any set-node-value call is false as stated. -/
theorem listener_issues_a_setnode_call :
    acqIsMaster "ReadOnly" = false ∧
    Event.setNode NodeMapKind.tlStream "StreamMulticastEnable" "true" ∈
      (AcquireImages "ReadOnly" "MultiFrame" false []).1 := by
  decide

/-! ## main: early-exit paths -/

inductive MainEvent
  | printUsage
  | openSystem
  | updateDevices
  | noCameraMsg
  | selectDevice
  | createDevice
  | createOutputDir
  | joinMulticast
  | acquire
  | destroyDevice
  | closeSystem
  deriving Repr, DecidableEq

/-- main up to its two early returns: with fewer than two arguments (argv
counts the program name) it prints the usage text and returns 0 before
touching the Arena system; otherwise it opens the system and updates the
device list, and with zero devices it prints the no-camera diagnostic and
returns 0 before any device is created.  The behaviour after a device exists
(selection, device creation, output directory, multicast join, acquisition,
teardown and the surrounding try/catch) is taken as an opaque continuation
`deep`, since no claim here depends on it. -/
def mainRun (args : List String) (deviceCount : Nat)
    (deep : List MainEvent × Int) : List MainEvent × Int :=
  if args.length < 2 then ([MainEvent.printUsage], 0)
  else if deviceCount = 0 then
    ([MainEvent.openSystem, MainEvent.updateDevices, MainEvent.noCameraMsg], 0)
  else ([MainEvent.openSystem, MainEvent.updateDevices] ++ deep.1, deep.2)

/-- Claim C10: with no interface argument (argc < 2), or with zero devices
discovered, main returns exit code 0 after printing its diagnostic, and its
trace contains no device creation, no output-directory creation and no
acquisition. -/
theorem main_early_exits (args : List String) (deviceCount : Nat)
    (deep : List MainEvent × Int) :
    (args.length < 2 →
      mainRun args deviceCount deep = ([MainEvent.printUsage], 0) ∧
      MainEvent.createDevice ∉ (mainRun args deviceCount deep).1 ∧
      MainEvent.createOutputDir ∉ (mainRun args deviceCount deep).1 ∧
      MainEvent.acquire ∉ (mainRun args deviceCount deep).1) ∧
    (2 ≤ args.length → deviceCount = 0 →
      mainRun args deviceCount deep =
        ([MainEvent.openSystem, MainEvent.updateDevices, MainEvent.noCameraMsg], 0) ∧
      MainEvent.createDevice ∉ (mainRun args deviceCount deep).1 ∧
      MainEvent.createOutputDir ∉ (mainRun args deviceCount deep).1 ∧
      MainEvent.acquire ∉ (mainRun args deviceCount deep).1) := by
  constructor
  · intro hlen
    have : mainRun args deviceCount deep = ([MainEvent.printUsage], 0) := by
      simp [mainRun, hlen]
    rw [this]
    exact ⟨rfl, by decide, by decide, by decide⟩
  · intro hlen hdev
    have : mainRun args deviceCount deep =
        ([MainEvent.openSystem, MainEvent.updateDevices, MainEvent.noCameraMsg], 0) := by
      have hnot : ¬args.length < 2 := by omega
      simp [mainRun, hnot, hdev]
    rw [this]
    exact ⟨rfl, by decide, by decide, by decide⟩

/-- Witness for C10 at concrete inputs: a run with only the program name, and
a run with an interface argument but no devices. -/
theorem main_early_exits_witness :
    mainRun ["Cpp_Multicast_Save"] 3 ([MainEvent.acquire], 1) =
        ([MainEvent.printUsage], 0) ∧
      mainRun ["Cpp_Multicast_Save", "eno1"] 0 ([MainEvent.acquire], 1) =
        ([MainEvent.openSystem, MainEvent.updateDevices, MainEvent.noCameraMsg], 0) :=
  ⟨(((main_early_exits ["Cpp_Multicast_Save"] 3 ([MainEvent.acquire], 1)).1) (by decide)).1,
   (((main_early_exits ["Cpp_Multicast_Save", "eno1"] 0
      ([MainEvent.acquire], 1)).2) (by decide) rfl).1⟩

end MulticastSave
